import Mathlib

/-!
Verification of `pyscenic/rnkdb.py` (`RankingDatabase`): a read-only loader
for whole-genome ranking databases stored in SQLite.

The embedding models:
* the SQLite store as a `Store` (the `motifs` table in `idx` order, and the
  `rankings` table of `(geneID, ranking BLOB)` rows in internal row order);
* `ORDER BY geneID` as a stable sort by binary (codepoint-lexicographic)
  collation on identifiers;
* `np.frombuffer` / `np.int16` / `np.int32` little-endian decoding;
* numpy column assignment `rankings[:, idx] = values` including its
  length-1 broadcasting behaviour;
* `np.empty` as a matrix whose initial contents are an arbitrary `junk`
  function (uninitialized memory).

Gene and motif identifiers are lists of characters.
-/

/-- Identifiers (gene names, motif names): character strings. -/
abbrev Str := List Char

/-- The single-quote character `'` (codepoint 39), used by the SQL quoting. -/
def squo : Char := Char.ofNat 39

/-- The numpy dtypes the module selects between: `np.int16` and `np.int32`. -/
inductive Dtype
  | int16
  | int32
deriving DecidableEq

/-- `derive_dtype` from `RankingDatabase.__init__`: the datatype for storing
0-based rankings of `n` genes is `np.int16` if `n <= 2**15`, else `np.int32`. -/
def derive_dtype (n : Nat) : Dtype :=
  if n ≤ 2 ^ 15 then .int16 else .int32

/-- `np.dtype(...).itemsize`: bytes per element. -/
def Dtype.itemsize : Dtype → Nat
  | .int16 => 2
  | .int32 => 4

/-- Interpret `u` (reduced mod `2 ^ bits`) as a two's-complement signed value. -/
def toSigned (bits : Nat) (u : Nat) : Int :=
  let v := u % 2 ^ bits
  if v < 2 ^ (bits - 1) then (v : Int) else (v : Int) - 2 ^ bits

/-- Decode a byte sequence as little-endian `int16` values
(any trailing byte that cannot form a full element is ignored here;
`frombuffer` rejects such buffers before calling this). -/
def decode16 : List Nat → List Int
  | b0 :: b1 :: rest => toSigned 16 (b0 % 256 + 256 * (b1 % 256)) :: decode16 rest
  | _ => []

/-- Decode a byte sequence as little-endian `int32` values. -/
def decode32 : List Nat → List Int
  | b0 :: b1 :: b2 :: b3 :: rest =>
      toSigned 32 (b0 % 256 + 256 * (b1 % 256) + 65536 * (b2 % 256) + 16777216 * (b3 % 256))
        :: decode32 rest
  | _ => []

/-- Decode a blob at the given dtype. -/
def decodeChunks (dt : Dtype) (bs : List Nat) : List Int :=
  match dt with
  | .int16 => decode16 bs
  | .int32 => decode32 bs

/-- Errors surfaced by the load operations, following the spec taxonomy:
`invalidArgument` for the failed argument assertion, `decodeError` for the
`ValueError`s raised on malformed blob data (from `np.frombuffer` or from a
column assignment with mismatched length), `indexError` for a column
assignment out of range, `storeError` for a query the store cannot parse. -/
inductive LoadError
  | invalidArgument
  | decodeError
  | indexError
  | storeError
deriving DecidableEq

/-- `np.frombuffer(blob, dtype=dt)`: fails unless the buffer length is an
exact multiple of the item size, otherwise decodes every element. -/
def frombuffer (dt : Dtype) (blob : List Nat) : Except LoadError (List Int) :=
  if blob.length % dt.itemsize = 0 then .ok (decodeChunks dt blob) else .error .decodeError

/-- A matrix of shape (F, G) stored as its list of G columns, each of
length F; column `j` is `rankings[:, j]`. -/
abbrev RMatrix := List (List Int)

/-- `np.empty(shape=(F, G))`: an F×G matrix whose initial (uninitialized)
contents are supplied by the arbitrary function `junk`. -/
def npEmpty (F G : Nat) (junk : Nat → Nat → Int) : RMatrix :=
  (List.range G).map fun j => (List.range F).map fun i => junk i j

/-- `rankings[:, idx] = vals`: numpy column assignment. The assigned vector
must have exactly F elements, or a single element which is broadcast across
the whole column; any other length raises `ValueError`, and a column index
out of range raises `IndexError`. -/
def setColumn (F : Nat) (m : RMatrix) (idx : Nat) (vals : List Int) : Except LoadError RMatrix :=
  if idx < m.length then
    if vals.length = F then .ok (m.set idx vals)
    else
      match vals with
      | [v] => .ok (m.set idx (List.replicate F v))
      | _ => .error .decodeError
  else .error .indexError

/-- One row of the `rankings` table: `(geneID TEXT, ranking BLOB)`. -/
structure Row where
  geneID : Str
  blob : List Nat
deriving DecidableEq

/-- The SQLite database behind a `RankingDatabase`: the `motifs` table
(motif names, listed here already in `idx` order, matching
`SELECT motifName FROM motifs ORDER BY idx`) and the `rankings` table
(rows listed in internal row order). -/
structure Store where
  motifs : List Str
  rankings : List Row
deriving DecidableEq

/-- Binary-collation (codepoint-lexicographic) string comparison, the order
SQLite uses for `ORDER BY geneID` on TEXT values: the empty string first,
otherwise compare head characters and recurse on equal heads. -/
def strLe : Str → Str → Bool
  | [], _ => true
  | _ :: _, [] => false
  | a :: as, b :: bs => if a = b then strLe as bs else decide (a < b)

/-- `strLe` as a relation. -/
def strLeP (a b : Str) : Prop := strLe a b = true

instance : DecidableRel strLeP := fun a b => inferInstanceAs (Decidable (strLe a b = true))

/-- Row comparison by `geneID`, the sort key of `ORDER BY geneID`. -/
def rowLeP (a b : Row) : Prop := strLeP a.geneID b.geneID

instance : DecidableRel rowLeP := fun a b => inferInstanceAs (Decidable (strLeP a.geneID b.geneID))

/-- `SELECT COUNT(*) FROM rankings;` (`GENE_ID_COUNT_QUERY`). -/
def geneIdCount (st : Store) : Nat := st.rankings.length

/-- `SELECT motifName FROM motifs ORDER BY idx;` (`FEATURE_IDS_QUERY`):
the `self._features` tuple fetched at construction. -/
def featureIds (st : Store) : List Str := st.motifs

/-- `SELECT geneID, ranking FROM rankings ORDER BY geneID;`
(`ALL_RANKINGS_QUERY`): all rows, ordered by gene identifier. -/
def allRankings (st : Store) : List Row := List.insertionSort rowLeP st.rankings

/-- `SELECT geneID FROM rankings ORDER BY geneID;` (`ALL_GENE_IDS_QUERY`):
the `self.genes` property. -/
def allGeneIds (st : Store) : List Str :=
  List.insertionSort strLeP (st.rankings.map Row.geneID)

/-- `SELECT geneID, ranking FROM rankings WHERE geneID IN (…) ORDER BY geneID;`
(`RANKINGS_QUERY`) evaluated at a decoded identifier list. -/
def rankingsWhereIn (st : Store) (ids : List Str) : List Row :=
  List.insertionSort rowLeP (st.rankings.filter fun r => decide (r.geneID ∈ ids))

/-- `value.replace("'", "''")` inside `quoted_csv`: double every embedded
single quote. -/
def escapeQuotes : Str → Str
  | [] => []
  | c :: cs => if c = squo then squo :: squo :: escapeQuotes cs else c :: escapeQuotes cs

/-- `quote(value)` inside `quoted_csv`: `"'" + value.replace("'", "''") + "'"`. -/
def quote (v : Str) : Str := squo :: (escapeQuotes v ++ [squo])

/-- `quoted_csv(values)`: `','.join(map(quote, values))`. -/
def quoted_csv : List Str → Str
  | [] => []
  | [v] => quote v
  | v :: vs => quote v ++ ',' :: quoted_csv vs

/-- SQLite string-literal lexing after an opening quote: a doubled quote
stands for one embedded quote character, a single quote closes the literal.
Returns the decoded literal together with the unconsumed input. -/
def parseBody : Str → Option (Str × Str)
  | [] => none
  | c :: cs =>
    if c = squo then
      if cs.head? = some squo then (parseBody cs.tail).map fun p => (squo :: p.1, p.2)
      else some ([], cs)
    else (parseBody cs).map fun p => (c :: p.1, p.2)
termination_by s => s.length
decreasing_by
  · simp only [List.length_tail, List.length_cons]
    omega
  · simp only [List.length_cons]
    omega

/-- Lex one SQL string literal: an opening quote followed by a body. -/
def parseLit : Str → Option (Str × Str)
  | c :: cs => if c = squo then parseBody cs else none
  | [] => none

/-- Lex a non-empty comma-separated list of SQL string literals, as the
SQLite parser does for the contents of `IN (…)`; `fuel` bounds the number
of literals. -/
def parseCsvAux : Nat → Str → Option (List Str)
  | 0, _ => none
  | fuel + 1, s =>
    match parseLit s with
    | none => none
    | some (v, rest) =>
      match rest with
      | [] => some [v]
      | c :: rest2 => if c = ',' then (parseCsvAux fuel rest2).map fun l => v :: l else none

/-- Decode the identifier list the store receives from the text built by
`quoted_csv`. -/
def parseCsv (s : Str) : Option (List Str) := parseCsvAux (s.length + 1) s

/-- Shared decode loop of `load_full` and `load`: for each returned row,
`rankings[:, idx] = np.frombuffer(ranking, dtype=self._dtype)`. -/
def fillColumns (dt : Dtype) (F : Nat) : List Row → Nat → RMatrix → Except LoadError RMatrix
  | [], _, m => .ok m
  | row :: rest, idx, m =>
    match frombuffer dt row.blob with
    | .error e => .error e
    | .ok vals =>
      match setColumn F m idx vals with
      | .error e => .error e
      | .ok m2 => fillColumns dt F rest (idx + 1) m2

/-- `RankingDatabase.load_full`: pre-allocate an
`(len(self.features), len(self.genes))` matrix, scan `ALL_RANKINGS_QUERY`,
decode each blob into the next column, and return
`(self.features, self.genes, rankings)`. -/
def load_full (st : Store) (junk : Nat → Nat → Int) :
    Except LoadError (List Str × List Str × RMatrix) :=
  let F := (featureIds st).length
  let m0 := npEmpty F (allGeneIds st).length junk
  match fillColumns (derive_dtype (geneIdCount st)) F (allRankings st) 0 m0 with
  | .error e => .error e
  | .ok m => .ok (featureIds st, allGeneIds st, m)

/-- `RankingDatabase.load`: assert the gene signature is non-empty,
pre-allocate an `(len(self.features), len(gs))` matrix, run
`RANKINGS_QUERY` on the identifier list built by `quoted_csv`, decode each
returned blob into the next column while collecting the returned gene
identifiers, and return `(self._features, genes, rankings)`. -/
def load (st : Store) (gs : List Str) (junk : Nat → Nat → Int) :
    Except LoadError (List Str × List Str × RMatrix) :=
  if gs = [] then .error .invalidArgument
  else
    let F := (featureIds st).length
    let m0 := npEmpty F gs.length junk
    match parseCsv (quoted_csv gs) with
    | none => .error .storeError
    | some ids =>
      let rows := rankingsWhereIn st ids
      match fillColumns (derive_dtype (geneIdCount st)) F rows 0 m0 with
      | .error e => .error e
      | .ok m => .ok (featureIds st, rows.map Row.geneID, m)

/-- Errors raised by `RankingDatabase.__init__`, following the spec
taxonomy: `notFound` for the failed file-existence assertion,
`invalidArgument` for an empty name or nomenclature. -/
inductive InitError
  | notFound
  | invalidArgument
deriving DecidableEq

/-- A constructed `RankingDatabase` (the state `__init__` establishes). -/
structure RankingDatabase where
  fname : Str
  name : Str
  nomenclature : Str
  store : Store

/-- `RankingDatabase.__init__`: assert, in order, that the database file
exists (`pathExists` is the `os.path.exists` oracle of the surrounding
filesystem), that the name is non-empty and that the nomenclature is
non-empty; only then produce the loader. -/
def RankingDatabase.init (pathExists : Str → Bool) (fname nm nomenclature : Str) (st : Store) :
    Except InitError RankingDatabase :=
  if pathExists fname = false then .error .notFound
  else if nm = [] then .error .invalidArgument
  else if nomenclature = [] then .error .invalidArgument
  else .ok ⟨fname, nm, nomenclature, st⟩

/-- The documented invariant of a valid database file: every ranking blob
holds exactly one rank per motif at the derived width
(`blob length = featureCount × rankWidth bytes`). -/
def WFStore (st : Store) : Prop :=
  ∀ r ∈ st.rankings,
    r.blob.length = st.motifs.length * (derive_dtype st.rankings.length).itemsize

instance : DecidablePred WFStore := fun st =>
  inferInstanceAs (Decidable (∀ r ∈ st.rankings, _))

/-- A malformed ranking blob in the sense the decode loop rejects: its byte
length is not an exact multiple of the item size, or its element count is
neither the feature count `F` nor 1 (the length numpy would broadcast). -/
def badBlob (dt : Dtype) (F : Nat) (r : Row) : Prop :=
  ¬ (r.blob.length % dt.itemsize = 0 ∧
      (r.blob.length / dt.itemsize = F ∨ r.blob.length / dt.itemsize = 1))

instance (dt F r) : Decidable (badBlob dt F r) :=
  inferInstanceAs (Decidable (¬ _))

/-- Fixed contents for uninitialized matrices in concrete examples. -/
def junk0 : Nat → Nat → Int := fun _ _ => 37

/-- A small concrete database: three motifs, four genes, two bytes per rank
(`derive_dtype 4 = int16`), every blob well-formed. -/
def exStore : Store :=
  { motifs := [['f', '1'], ['f', '2'], ['f', '3']]
  , rankings :=
      [ ⟨['g', '1'], [0, 0, 1, 0, 2, 0]⟩
      , ⟨['g', '2'], [1, 0, 2, 0, 3, 0]⟩
      , ⟨['g', '3'], [2, 0, 3, 0, 0, 0]⟩
      , ⟨['g', '4'], [3, 0, 0, 0, 1, 0]⟩ ] }

/-- A database whose single gene has a one-element blob while the database
has two features: the decoded column is shorter than the feature count. -/
def c4store : Store :=
  { motifs := [['f'], ['g']]
  , rankings := [⟨['a'], [5, 0]⟩] }

/-- A database whose single blob has three bytes: not a multiple of the
two-byte rank width derived from its gene count. -/
def c4badStore : Store :=
  { motifs := [['f']]
  , rankings := [⟨['a'], [1, 2, 3]⟩] }

/-- A database whose internal row order (`b` before `a`) differs from the
ascending lexical order of its gene identifiers. -/
def c6store : Store :=
  { motifs := [['m']]
  , rankings := [⟨['b'], [1, 0]⟩, ⟨['a'], [2, 0]⟩] }

/-- The degenerate database with no features and no genes. -/
def emptyStore : Store := ⟨[], []⟩

/-- C1: the rank integer width chosen at construction is 16-bit signed iff
the total gene count is at most 32768, and 32-bit signed otherwise; in
particular `geneCount = 32768` yields 16-bit and `geneCount = 32769`
yields 32-bit. -/
theorem derive_dtype_int16_iff :
    (∀ n : Nat, derive_dtype n = Dtype.int16 ↔ n ≤ 32768) ∧
    (∀ n : Nat, derive_dtype n = Dtype.int32 ↔ 32768 < n) ∧
    derive_dtype 32768 = Dtype.int16 ∧ derive_dtype 32769 = Dtype.int32 := by
  refine ⟨fun n => ?_, fun n => ?_, by decide, by decide⟩ <;>
    · simp only [derive_dtype]
      split <;> rename_i h <;> simp_all

/-- `strLe` is reflexive. -/
theorem strLe_refl : ∀ a : Str, strLe a a = true
  | [] => rfl
  | a :: as => by simp [strLe, strLe_refl as]

/-- `strLe` is total. -/
theorem strLe_total : ∀ a b : Str, strLe a b = true ∨ strLe b a = true
  | [], _ => Or.inl rfl
  | _ :: _, [] => Or.inr rfl
  | a :: as, b :: bs => by
    by_cases hab : a = b
    · subst hab
      simpa [strLe] using strLe_total as bs
    · have hba : ¬ b = a := fun h => hab h.symm
      rcases lt_or_gt_of_ne hab with h | h
      · exact Or.inl (by simp [strLe, hab, h])
      · exact Or.inr (by simp [strLe, hba]; exact h)

/-- `strLe` is transitive. -/
theorem strLe_trans : ∀ a b c : Str, strLe a b = true → strLe b c = true → strLe a c = true
  | [], _, _ => fun _ _ => rfl
  | _ :: _, [], _ => fun h _ => by simp [strLe] at h
  | _ :: _, _ :: _, [] => fun _ h => by simp [strLe] at h
  | a :: as, b :: bs, c :: cs => fun h1 h2 => by
    by_cases hab : a = b <;> by_cases hbc : b = c
    · subst hab; subst hbc
      simp only [strLe, if_pos rfl] at h1 h2 ⊢
      exact strLe_trans as bs cs h1 h2
    · subst hab
      have hlt : a < c := by simpa [strLe, hbc] using h2
      simp [strLe, ne_of_lt hlt, hlt]
    · subst hbc
      have hlt : a < b := by simpa [strLe, hab] using h1
      simp [strLe, ne_of_lt hlt, hlt]
    · have hlt1 : a < b := by simpa [strLe, hab] using h1
      have hlt2 : b < c := by simpa [strLe, hbc] using h2
      have hlt : a < c := lt_trans hlt1 hlt2
      simp [strLe, ne_of_lt hlt, hlt]

/-- `strLe` is antisymmetric. -/
theorem strLe_antisymm : ∀ a b : Str, strLe a b = true → strLe b a = true → a = b
  | [], [] => fun _ _ => rfl
  | [], _ :: _ => fun _ h => by simp [strLe] at h
  | _ :: _, [] => fun h _ => by simp [strLe] at h
  | a :: as, b :: bs => fun h1 h2 => by
    by_cases hab : a = b
    · subst hab
      simp only [strLe, if_pos rfl] at h1 h2
      rw [strLe_antisymm as bs h1 h2]
    · have hba : ¬ b = a := fun h => hab h.symm
      have h1' : a < b := by simpa [strLe, hab] using h1
      have h2' : b < a := by simpa [strLe, hba] using h2
      exact absurd h2' (lt_asymm h1')

/-- `rowLeP` is total. -/
theorem rowLe_total (a b : Row) : rowLeP a b ∨ rowLeP b a :=
  strLe_total a.geneID b.geneID

/-- `rowLeP` is transitive. -/
theorem rowLe_trans (a b c : Row) : rowLeP a b → rowLeP b c → rowLeP a c :=
  strLe_trans a.geneID b.geneID c.geneID

/-- `decode16` produces one element per two bytes. -/
theorem decode16_length : ∀ bs : List Nat, (decode16 bs).length = bs.length / 2
  | [] => rfl
  | [_] => by simp [decode16]
  | _ :: _ :: rest => by
    simp only [decode16, List.length_cons, decode16_length rest]
    omega

/-- `decode32` produces one element per four bytes. -/
theorem decode32_length : ∀ bs : List Nat, (decode32 bs).length = bs.length / 4
  | [] => rfl
  | [_] => by simp [decode32]
  | [_, _] => by simp [decode32]
  | [_, _, _] => by simp [decode32]
  | _ :: _ :: _ :: _ :: rest => by
    simp only [decode32, List.length_cons, decode32_length rest]
    omega

/-- The item size of either dtype is positive. -/
theorem itemsize_pos (dt : Dtype) : 0 < dt.itemsize := by
  cases dt <;> decide

/-- `decodeChunks` produces one element per `itemsize` bytes. -/
theorem decodeChunks_length (dt : Dtype) (bs : List Nat) :
    (decodeChunks dt bs).length = bs.length / dt.itemsize := by
  cases dt
  · exact decode16_length bs
  · exact decode32_length bs

/-- `npEmpty` has `G` columns. -/
theorem npEmpty_length (F G : Nat) (junk : Nat → Nat → Int) :
    (npEmpty F G junk).length = G := by
  simp [npEmpty]

/-- Every column of `npEmpty` has `F` entries. -/
theorem npEmpty_col_length (F G : Nat) (junk : Nat → Nat → Int) :
    ∀ c ∈ npEmpty F G junk, c.length = F := by
  intro c hc
  simp only [npEmpty, List.mem_map] at hc
  obtain ⟨j, -, rfl⟩ := hc
  simp

/-- Specification of the decode loop on well-formed rows: it succeeds and
writes column `idx + k` with the decode of row `k`, leaving every other
column untouched. -/
theorem fillColumns_ok (dt : Dtype) (F : Nat) :
    ∀ (rows : List Row) (idx : Nat) (m : RMatrix),
      idx + rows.length ≤ m.length →
      (∀ r ∈ rows, r.blob.length % dt.itemsize = 0 ∧ (decodeChunks dt r.blob).length = F) →
      ∃ m2, fillColumns dt F rows idx m = .ok m2 ∧
        m2.length = m.length ∧
        (∀ j, j < idx ∨ idx + rows.length ≤ j → m2[j]? = m[j]?) ∧
        (∀ k (hk : k < rows.length),
          m2[idx + k]? = some (decodeChunks dt ((rows.get ⟨k, hk⟩).blob)))
  | [], idx, m, _, _ =>
      ⟨m, rfl, rfl, fun _ _ => rfl, fun k hk => absurd hk (Nat.not_lt_zero k)⟩
  | row :: rest, idx, m, hlen, hgood => by
    have hrow := hgood row (List.mem_cons_self row rest)
    have hfb : frombuffer dt row.blob = .ok (decodeChunks dt row.blob) := by
      simp [frombuffer, hrow.1]
    have hidx : idx < m.length := by
      simp only [List.length_cons] at hlen; omega
    have hsc : setColumn F m idx (decodeChunks dt row.blob) =
        .ok (m.set idx (decodeChunks dt row.blob)) := by
      simp [setColumn, hidx, hrow.2]
    have hlen2 : (idx + 1) + rest.length ≤ (m.set idx (decodeChunks dt row.blob)).length := by
      simp only [List.length_set]
      simp only [List.length_cons] at hlen; omega
    obtain ⟨m2, hfc, hm2len, huntouched, hdecoded⟩ :=
      fillColumns_ok dt F rest (idx + 1) (m.set idx (decodeChunks dt row.blob)) hlen2
        (fun r hr => hgood r (List.mem_cons_of_mem row hr))
    refine ⟨m2, ?_, ?_, ?_, ?_⟩
    · simp only [fillColumns, hfb, hsc]
      exact hfc
    · simpa [List.length_set] using hm2len
    · intro j hj
      have hne : idx ≠ j := by
        simp only [List.length_cons] at hj; omega
      have hj2 : j < idx + 1 ∨ idx + 1 + rest.length ≤ j := by
        simp only [List.length_cons] at hj; omega
      rw [huntouched j hj2, List.getElem?_set_ne hne]
    · intro k hk
      cases k with
      | zero =>
        have h0 : idx + 0 < idx + 1 ∨ idx + 1 + rest.length ≤ idx + 0 := by omega
        rw [huntouched (idx + 0) h0]
        simpa using List.getElem?_set_self hidx
      | succ k2 =>
        have hk2 : k2 < rest.length := by
          simp only [List.length_cons] at hk; omega
        have hmain := hdecoded k2 hk2
        have harith : idx + (k2 + 1) = (idx + 1) + k2 := by omega
        rw [harith, hmain]
        rfl

/-- A well-formed head row steps the decode loop to the tail with a matrix
of unchanged width. -/
theorem fillColumns_cons_good (dt : Dtype) (F : Nat) (row : Row) (rest : List Row)
    (idx : Nat) (m : RMatrix) (hgood : ¬ badBlob dt F row) (hidx : idx < m.length) :
    ∃ m1, fillColumns dt F (row :: rest) idx m = fillColumns dt F rest (idx + 1) m1 ∧
      m1.length = m.length := by
  rw [badBlob, not_not] at hgood
  obtain ⟨hmod, hcnt⟩ := hgood
  have hfb : frombuffer dt row.blob = .ok (decodeChunks dt row.blob) := by
    simp [frombuffer, hmod]
  have hlendec : (decodeChunks dt row.blob).length = row.blob.length / dt.itemsize :=
    decodeChunks_length dt row.blob
  rcases hcnt with hF | h1
  · refine ⟨m.set idx (decodeChunks dt row.blob), ?_, by simp⟩
    have hsc : setColumn F m idx (decodeChunks dt row.blob) =
        .ok (m.set idx (decodeChunks dt row.blob)) := by
      simp [setColumn, hidx, hlendec, hF]
    simp only [fillColumns, hfb, hsc]
  · obtain ⟨v, hv⟩ : ∃ v, decodeChunks dt row.blob = [v] :=
      List.length_eq_one.mp (by rw [hlendec, h1])
    by_cases hF1 : F = 1
    · refine ⟨m.set idx (decodeChunks dt row.blob), ?_, by simp⟩
      have hsc : setColumn F m idx (decodeChunks dt row.blob) =
          .ok (m.set idx (decodeChunks dt row.blob)) := by
        simp [setColumn, hidx, hlendec, h1, hF1]
      simp only [fillColumns, hfb, hsc]
    · refine ⟨m.set idx (List.replicate F v), ?_, by simp⟩
      have hnF : ¬ ([v].length = F) := by
        simpa using fun h => hF1 h.symm
      have hsc : setColumn F m idx (decodeChunks dt row.blob) =
          .ok (m.set idx (List.replicate F v)) := by
        rw [hv]
        simp [setColumn, hidx, hnF]
        exact fun h => absurd h.symm hF1
      simp only [fillColumns, hfb, hsc]

/-- A malformed head row makes the decode loop fail with `decodeError`. -/
theorem fillColumns_cons_bad (dt : Dtype) (F : Nat) (row : Row) (rest : List Row)
    (idx : Nat) (m : RMatrix) (hbad : badBlob dt F row) (hidx : idx < m.length) :
    fillColumns dt F (row :: rest) idx m = .error .decodeError := by
  by_cases hmod : row.blob.length % dt.itemsize = 0
  · have hcnt : ¬ (row.blob.length / dt.itemsize = F ∨ row.blob.length / dt.itemsize = 1) :=
      fun h => hbad ⟨hmod, h⟩
    push_neg at hcnt
    obtain ⟨hcF, hc1⟩ := hcnt
    have hfb : frombuffer dt row.blob = .ok (decodeChunks dt row.blob) := by
      simp [frombuffer, hmod]
    have hlendec : (decodeChunks dt row.blob).length = row.blob.length / dt.itemsize :=
      decodeChunks_length dt row.blob
    have hnotF : ¬ ((decodeChunks dt row.blob).length = F) := by
      rw [hlendec]; exact hcF
    have hsc : setColumn F m idx (decodeChunks dt row.blob) = .error .decodeError := by
      simp only [setColumn, if_pos hidx, if_neg hnotF]
      cases hdc : decodeChunks dt row.blob with
      | nil => rfl
      | cons v vs =>
        cases vs with
        | nil =>
          have h1 : row.blob.length / dt.itemsize = 1 := by
            rw [← hlendec, hdc]; rfl
          exact absurd h1 hc1
        | cons v2 vs2 => rfl
    simp only [fillColumns, hfb, hsc]
  · have hfb : frombuffer dt row.blob = .error .decodeError := by
      simp [frombuffer, hmod]
    simp only [fillColumns, hfb]

/-- The decode loop fails with `decodeError` as soon as any row's blob is
malformed, provided the matrix is wide enough for the row count. -/
theorem fillColumns_err (dt : Dtype) (F : Nat) :
    ∀ (rows : List Row) (idx : Nat) (m : RMatrix),
      idx + rows.length ≤ m.length →
      (∃ r ∈ rows, badBlob dt F r) →
      fillColumns dt F rows idx m = .error .decodeError
  | [], _, _, _, hbad => by simp at hbad
  | row :: rest, idx, m, hlen, hbad => by
    have hidx : idx < m.length := by
      simp only [List.length_cons] at hlen; omega
    by_cases hrow : badBlob dt F row
    · exact fillColumns_cons_bad dt F row rest idx m hrow hidx
    · obtain ⟨m1, hstep, hm1⟩ := fillColumns_cons_good dt F row rest idx m hrow hidx
      have hbad2 : ∃ r ∈ rest, badBlob dt F r := by
        rcases hbad with ⟨r, hr, hb⟩
        rcases List.mem_cons.mp hr with rfl | h2
        · exact absurd hb hrow
        · exact ⟨r, h2, hb⟩
      rw [hstep]
      refine fillColumns_err dt F rest (idx + 1) m1 ?_ hbad2
      rw [hm1]
      simp only [List.length_cons] at hlen
      omega

/-- The full scan is sorted by gene identifier. -/
theorem allRankings_sorted (st : Store) : List.Sorted rowLeP (allRankings st) := by
  haveI : IsTotal Row rowLeP := ⟨rowLe_total⟩
  haveI : IsTrans Row rowLeP := ⟨rowLe_trans⟩
  exact List.sorted_insertionSort rowLeP st.rankings

/-- The full scan returns all stored rows. -/
theorem allRankings_perm (st : Store) : List.Perm (allRankings st) st.rankings :=
  List.perm_insertionSort rowLeP st.rankings

/-- The gene-identifier list is sorted. -/
theorem allGeneIds_sorted (st : Store) : List.Sorted strLeP (allGeneIds st) := by
  haveI : IsTotal Str strLeP := ⟨strLe_total⟩
  haveI : IsTrans Str strLeP := ⟨strLe_trans⟩
  exact List.sorted_insertionSort strLeP (st.rankings.map Row.geneID)

/-- The gene-identifier list returns all stored identifiers. -/
theorem allGeneIds_perm (st : Store) :
    List.Perm (allGeneIds st) (st.rankings.map Row.geneID) :=
  List.perm_insertionSort strLeP (st.rankings.map Row.geneID)

/-- The gene list of `ALL_GENE_IDS_QUERY` is exactly the gene column of the
rows of `ALL_RANKINGS_QUERY`, in the same order. -/
theorem allGeneIds_eq_map (st : Store) :
    allGeneIds st = (allRankings st).map Row.geneID := by
  haveI : IsAntisymm Str strLeP := ⟨strLe_antisymm⟩
  refine List.eq_of_perm_of_sorted ?_ (allGeneIds_sorted st) ?_
  · exact (allGeneIds_perm st).trans ((allRankings_perm st).map Row.geneID).symm
  · exact List.Pairwise.map Row.geneID (fun a b h => h) (allRankings_sorted st)

/-- The filtered query result is sorted by gene identifier. -/
theorem rankingsWhereIn_sorted (st : Store) (ids : List Str) :
    List.Sorted rowLeP (rankingsWhereIn st ids) := by
  haveI : IsTotal Row rowLeP := ⟨rowLe_total⟩
  haveI : IsTrans Row rowLeP := ⟨rowLe_trans⟩
  exact List.sorted_insertionSort rowLeP _

/-- The filtered query returns exactly the stored rows matching the set. -/
theorem rankingsWhereIn_perm (st : Store) (ids : List Str) :
    List.Perm (rankingsWhereIn st ids) (st.rankings.filter fun r => decide (r.geneID ∈ ids)) :=
  List.perm_insertionSort rowLeP _

/-- Membership in the filtered query result. -/
theorem mem_rankingsWhereIn {st : Store} {ids : List Str} {r : Row} :
    r ∈ rankingsWhereIn st ids ↔ r ∈ st.rankings ∧ r.geneID ∈ ids := by
  rw [rankingsWhereIn, List.mem_insertionSort, List.mem_filter]
  simp

/-- On a well-formed store every blob decodes to one value per feature. -/
theorem wf_decode (st : Store) (hwf : WFStore st) :
    ∀ r ∈ st.rankings,
      r.blob.length % (derive_dtype (geneIdCount st)).itemsize = 0 ∧
      (decodeChunks (derive_dtype (geneIdCount st)) r.blob).length = (featureIds st).length := by
  intro r hr
  have hlen := hwf r hr
  simp only [geneIdCount, featureIds]
  have hpos := itemsize_pos (derive_dtype st.rankings.length)
  constructor
  · rw [hlen]
    exact Nat.mul_mod_left _ _
  · rw [decodeChunks_length, hlen, Nat.mul_div_cancel _ hpos]

/-- The lexer consumes an escaped identifier body exactly up to the closing
quote that `quote` appended, provided the following text does not begin
with another quote character. -/
theorem parseBody_escape :
    ∀ (v rest : Str), rest.head? ≠ some squo →
      parseBody (escapeQuotes v ++ squo :: rest) = some (v, rest)
  | [], rest, hrest => by
    rw [escapeQuotes, List.nil_append, parseBody, if_pos rfl, if_neg hrest]
  | c :: v2, rest, hrest => by
    by_cases hc : c = squo
    · subst hc
      have hrec := parseBody_escape v2 rest hrest
      simp only [escapeQuotes, if_pos rfl, List.cons_append]
      rw [parseBody.eq_def]
      simp [hrec]
    · have hrec := parseBody_escape v2 rest hrest
      simp only [escapeQuotes, if_neg hc, List.cons_append]
      rw [parseBody, if_neg hc, hrec]
      rfl

/-- Lexing one quoted identifier from the text `quote v ++ rest`. -/
theorem parseLit_quote (v rest : Str) (hrest : rest.head? ≠ some squo) :
    parseLit (quote v ++ rest) = some (v, rest) := by
  have hshape : quote v ++ rest = squo :: (escapeQuotes v ++ squo :: rest) := by
    simp [quote]
  rw [hshape]
  simp only [parseLit, if_pos rfl]
  exact parseBody_escape v rest hrest

/-- Each quoted identifier adds at least one character to the query text. -/
theorem quoted_csv_length : ∀ gs : List Str, gs.length ≤ (quoted_csv gs).length + 1
  | [] => by simp
  | [v] => by simp [quoted_csv, quote]
  | v :: v2 :: vs => by
    have hIH := quoted_csv_length (v2 :: vs)
    simp only [quoted_csv, quote, List.length_append, List.length_cons] at hIH ⊢
    omega

/-- With enough fuel, lexing the text built by `quoted_csv` recovers the
original identifier list. -/
theorem parseCsvAux_quoted :
    ∀ (gs : List Str) (fuel : Nat), gs ≠ [] → gs.length ≤ fuel →
      parseCsvAux fuel (quoted_csv gs) = some gs
  | [], _, h, _ => absurd rfl h
  | _ :: _, 0, _, hfuel => by simp at hfuel
  | [v], fuel + 1, _, _ => by
    have h1 : parseLit (quote v ++ []) = some (v, []) := parseLit_quote v [] (by simp)
    rw [List.append_nil] at h1
    simp only [quoted_csv, parseCsvAux, h1]
  | v :: v2 :: vs, fuel + 1, _, hfuel => by
    have hhead : (',' :: quoted_csv (v2 :: vs)).head? ≠ some squo := by
      simp only [List.head?_cons, ne_eq, Option.some.injEq]
      decide
    have h1 : parseLit (quote v ++ ',' :: quoted_csv (v2 :: vs)) =
        some (v, ',' :: quoted_csv (v2 :: vs)) := parseLit_quote v _ hhead
    have hIH : parseCsvAux fuel (quoted_csv (v2 :: vs)) = some (v2 :: vs) := by
      refine parseCsvAux_quoted (v2 :: vs) fuel (by simp) ?_
      simp only [List.length_cons] at hfuel ⊢
      omega
    simp only [quoted_csv, parseCsvAux, h1, hIH]
    rfl

/-- The filtered-load query text round-trips: lexing `quoted_csv gs`
recovers exactly the original identifier list. -/
theorem parseCsv_quoted (gs : List Str) (h : gs ≠ []) :
    parseCsv (quoted_csv gs) = some gs :=
  parseCsvAux_quoted gs ((quoted_csv gs).length + 1) h
    (quoted_csv_length gs)

/-- With unique stored keys, the filtered query returns at most one row per
requested identifier. -/
theorem rankingsWhereIn_length_le (st : Store) (ids : List Str)
    (hnodup : (st.rankings.map Row.geneID).Nodup) :
    (rankingsWhereIn st ids).length ≤ ids.length := by
  have hperm := rankingsWhereIn_perm st ids
  rw [hperm.length_eq]
  have hsub : List.Sublist (st.rankings.filter fun r => decide (r.geneID ∈ ids)) st.rankings :=
    List.filter_sublist st.rankings
  have hmapnodup :
      ((st.rankings.filter fun r => decide (r.geneID ∈ ids)).map Row.geneID).Nodup :=
    (hsub.map Row.geneID).nodup hnodup
  have hsubset : ((st.rankings.filter fun r => decide (r.geneID ∈ ids)).map Row.geneID) ⊆ ids := by
    intro x hx
    simp only [List.mem_map] at hx
    obtain ⟨r, hr, rfl⟩ := hx
    simpa using List.of_mem_filter hr
  have hlen := (hmapnodup.subperm hsubset).length_le
  simpa using hlen

/-- Successful full load on a well-formed store, fully characterized. -/
theorem load_full_ok (st : Store) (junk : Nat → Nat → Int) (hwf : WFStore st) :
    ∃ m, load_full st junk = .ok (featureIds st, allGeneIds st, m) ∧
      m.length = (allGeneIds st).length ∧
      (∀ c ∈ m, c.length = (featureIds st).length) ∧
      (∀ g (hg : g < (allRankings st).length),
        m[g]? = some (decodeChunks (derive_dtype (geneIdCount st))
          (((allRankings st).get ⟨g, hg⟩).blob))) := by
  have hG : (allGeneIds st).length = st.rankings.length := by
    simp [allGeneIds]
  have hR : (allRankings st).length = st.rankings.length := (allRankings_perm st).length_eq
  have hm0len : (npEmpty (featureIds st).length (allGeneIds st).length junk).length =
      (allGeneIds st).length := npEmpty_length _ _ _
  have hgood : ∀ r ∈ allRankings st,
      r.blob.length % (derive_dtype (geneIdCount st)).itemsize = 0 ∧
      (decodeChunks (derive_dtype (geneIdCount st)) r.blob).length = (featureIds st).length := by
    intro r hr
    exact wf_decode st hwf r ((allRankings_perm st).mem_iff.mp hr)
  obtain ⟨m2, hfc, hm2len, huntouched, hdecoded⟩ :=
    fillColumns_ok (derive_dtype (geneIdCount st)) (featureIds st).length
      (allRankings st) 0 (npEmpty (featureIds st).length (allGeneIds st).length junk)
      (by rw [hm0len, hR, hG]; omega) hgood
  refine ⟨m2, ?_, ?_, ?_, ?_⟩
  · simp only [load_full]
    rw [hfc]
  · rw [hm2len, hm0len]
  · intro c hc
    obtain ⟨j, hget⟩ := List.mem_iff_getElem?.mp hc
    by_cases hj : j < (allRankings st).length
    · have hd := hdecoded j hj
      rw [Nat.zero_add] at hd
      rw [hd] at hget
      obtain rfl := Option.some.inj hget
      exact (hgood _ (List.get_mem _ _ _)).2
    · have huj := huntouched j (Or.inr (by omega))
      rw [huj] at hget
      exact npEmpty_col_length _ _ _ c (List.getElem?_mem hget)
  · intro g hg
    have hd := hdecoded g hg
    rwa [Nat.zero_add] at hd

/-- Successful filtered load on a well-formed store with unique gene keys,
fully characterized. -/
theorem load_ok (st : Store) (gs : List Str) (junk : Nat → Nat → Int)
    (hne : gs ≠ []) (hwf : WFStore st) (hnodup : (st.rankings.map Row.geneID).Nodup) :
    ∃ m, load st gs junk = .ok (featureIds st, (rankingsWhereIn st gs).map Row.geneID, m) ∧
      m.length = gs.length ∧
      (∀ c ∈ m, c.length = (featureIds st).length) ∧
      (∀ k (hk : k < (rankingsWhereIn st gs).length),
        m[k]? = some (decodeChunks (derive_dtype (geneIdCount st))
          (((rankingsWhereIn st gs).get ⟨k, hk⟩).blob))) := by
  have hrows_le := rankingsWhereIn_length_le st gs hnodup
  have hm0len : (npEmpty (featureIds st).length gs.length junk).length = gs.length :=
    npEmpty_length _ _ _
  have hgood : ∀ r ∈ rankingsWhereIn st gs,
      r.blob.length % (derive_dtype (geneIdCount st)).itemsize = 0 ∧
      (decodeChunks (derive_dtype (geneIdCount st)) r.blob).length = (featureIds st).length := by
    intro r hr
    exact wf_decode st hwf r (mem_rankingsWhereIn.mp hr).1
  obtain ⟨m2, hfc, hm2len, huntouched, hdecoded⟩ :=
    fillColumns_ok (derive_dtype (geneIdCount st)) (featureIds st).length
      (rankingsWhereIn st gs) 0 (npEmpty (featureIds st).length gs.length junk)
      (by rw [hm0len]; omega) hgood
  refine ⟨m2, ?_, ?_, ?_, ?_⟩
  · simp only [load, if_neg hne, parseCsv_quoted gs hne]
    rw [hfc]
  · rw [hm2len, hm0len]
  · intro c hc
    obtain ⟨j, hget⟩ := List.mem_iff_getElem?.mp hc
    by_cases hj : j < (rankingsWhereIn st gs).length
    · have hd := hdecoded j hj
      rw [Nat.zero_add] at hd
      rw [hd] at hget
      obtain rfl := Option.some.inj hget
      exact (hgood _ (List.get_mem _ _ _)).2
    · have huj := huntouched j (Or.inr (by omega))
      rw [huj] at hget
      exact npEmpty_col_length _ _ _ c (List.getElem?_mem hget)
  · intro k hk
    have hd := hdecoded k hk
    rwa [Nat.zero_add] at hd

/-- C2: `load_full` returns a matrix of shape (feature count, gene count);
for every scan position `g`, column `g` is exactly the signed-integer
decode (at the derived rank width) of the blob of the row returned at scan
position `g`, and entry `g` of the returned gene vector is that row's gene
identifier. -/
theorem load_full_columns_decode (st : Store) (junk : Nat → Nat → Int) (hwf : WFStore st) :
    ∃ gv m, load_full st junk = .ok (featureIds st, gv, m) ∧
      m.length = (allGeneIds st).length ∧
      (∀ c ∈ m, c.length = (featureIds st).length) ∧
      (∀ g (hg : g < (allRankings st).length),
        m[g]? = some (decodeChunks (derive_dtype (geneIdCount st))
          (((allRankings st).get ⟨g, hg⟩).blob)) ∧
        gv[g]? = some ((allRankings st).get ⟨g, hg⟩).geneID) := by
  obtain ⟨m, hload, hlen, hcols, hdec⟩ := load_full_ok st junk hwf
  refine ⟨allGeneIds st, m, hload, hlen, hcols, ?_⟩
  intro g hg
  refine ⟨hdec g hg, ?_⟩
  rw [allGeneIds_eq_map]
  rw [List.getElem?_map]
  rw [List.getElem?_eq_getElem hg]
  rfl

/-- Witness for C2 on a concrete well-formed database. -/
theorem load_full_columns_decode_witness :
    WFStore exStore ∧
    ∃ gv m, load_full exStore junk0 = .ok (featureIds exStore, gv, m) ∧
      m.length = (allGeneIds exStore).length ∧
      (∀ c ∈ m, c.length = (featureIds exStore).length) ∧
      (∀ g (hg : g < (allRankings exStore).length),
        m[g]? = some (decodeChunks (derive_dtype (geneIdCount exStore))
          (((allRankings exStore).get ⟨g, hg⟩).blob)) ∧
        gv[g]? = some ((allRankings exStore).get ⟨g, hg⟩).geneID) :=
  ⟨by decide, load_full_columns_decode exStore junk0 (by decide)⟩

/-- C3: for every database and non-empty requested gene set, the returned
gene vector is sorted ascending by identifier, every entry belongs to the
request, its length is at most the request size, and requested identifiers
absent from the store are silently omitted: the load still succeeds. -/
theorem load_sorted_subset (st : Store) (gs : List Str) (junk : Nat → Nat → Int)
    (hne : gs ≠ []) (hwf : WFStore st) (hnodup : (st.rankings.map Row.geneID).Nodup) :
    ∃ fs gv m, load st gs junk = .ok (fs, gv, m) ∧
      List.Sorted strLeP gv ∧
      (∀ x ∈ gv, x ∈ gs) ∧
      gv.length ≤ gs.length := by
  obtain ⟨m, hload, -, -, -⟩ := load_ok st gs junk hne hwf hnodup
  refine ⟨featureIds st, (rankingsWhereIn st gs).map Row.geneID, m, hload, ?_, ?_, ?_⟩
  · exact List.Pairwise.map Row.geneID (fun a b h => h) (rankingsWhereIn_sorted st gs)
  · intro x hx
    simp only [List.mem_map] at hx
    obtain ⟨r, hr, rfl⟩ := hx
    exact (mem_rankingsWhereIn.mp hr).2
  · simpa using rankingsWhereIn_length_le st gs hnodup

/-- Witness for C3: requesting `{g2, g4, gX}` from the concrete database
(`gX` absent from the store). -/
theorem load_sorted_subset_witness :
    (([['g', '2'], ['g', '4'], ['g', 'X']] : List Str) ≠ []) ∧
    WFStore exStore ∧
    (exStore.rankings.map Row.geneID).Nodup ∧
    ∃ fs gv m, load exStore [['g', '2'], ['g', '4'], ['g', 'X']] junk0 = .ok (fs, gv, m) ∧
      List.Sorted strLeP gv ∧
      (∀ x ∈ gv, x ∈ ([['g', '2'], ['g', '4'], ['g', 'X']] : List Str)) ∧
      gv.length ≤ ([['g', '2'], ['g', '4'], ['g', 'X']] : List Str).length :=
  ⟨by decide, by decide, by decide,
    load_sorted_subset exStore [['g', '2'], ['g', '4'], ['g', 'X']] junk0
      (by decide) (by decide) (by decide)⟩

/-- C5: a filtered load returns a matrix with exactly the feature count as
row count and exactly the request size as column count; the returned gene
vector has the matched-row count as length (at most the request size), and
for every `i` below that count, column `i` is the decode of the `i`-th
returned row. -/
theorem load_matrix_shape (st : Store) (gs : List Str) (junk : Nat → Nat → Int)
    (hne : gs ≠ []) (hwf : WFStore st) (hnodup : (st.rankings.map Row.geneID).Nodup) :
    ∃ gv m, load st gs junk = .ok (featureIds st, gv, m) ∧
      m.length = gs.length ∧
      (∀ c ∈ m, c.length = (featureIds st).length) ∧
      gv.length = (rankingsWhereIn st gs).length ∧
      gv.length ≤ gs.length ∧
      (∀ i (hi : i < (rankingsWhereIn st gs).length),
        m[i]? = some (decodeChunks (derive_dtype (geneIdCount st))
          (((rankingsWhereIn st gs).get ⟨i, hi⟩).blob))) := by
  obtain ⟨m, hload, hlen, hcols, hdec⟩ := load_ok st gs junk hne hwf hnodup
  refine ⟨(rankingsWhereIn st gs).map Row.geneID, m, hload, hlen, hcols, ?_, ?_, hdec⟩
  · simp
  · simpa using rankingsWhereIn_length_le st gs hnodup

/-- Witness for C5 on the concrete database and request `{g2, g4, gX}`. -/
theorem load_matrix_shape_witness :
    (([['g', '2'], ['g', '4'], ['g', 'X']] : List Str) ≠ []) ∧
    WFStore exStore ∧
    (exStore.rankings.map Row.geneID).Nodup ∧
    ∃ gv m,
      load exStore [['g', '2'], ['g', '4'], ['g', 'X']] junk0 = .ok (featureIds exStore, gv, m) ∧
      m.length = ([['g', '2'], ['g', '4'], ['g', 'X']] : List Str).length ∧
      (∀ c ∈ m, c.length = (featureIds exStore).length) ∧
      gv.length = (rankingsWhereIn exStore [['g', '2'], ['g', '4'], ['g', 'X']]).length ∧
      gv.length ≤ ([['g', '2'], ['g', '4'], ['g', 'X']] : List Str).length ∧
      (∀ i (hi : i < (rankingsWhereIn exStore [['g', '2'], ['g', '4'], ['g', 'X']]).length),
        m[i]? = some (decodeChunks (derive_dtype (geneIdCount exStore))
          (((rankingsWhereIn exStore [['g', '2'], ['g', '4'], ['g', 'X']]).get ⟨i, hi⟩).blob))) :=
  ⟨by decide, by decide, by decide,
    load_matrix_shape exStore [['g', '2'], ['g', '4'], ['g', 'X']] junk0
      (by decide) (by decide) (by decide)⟩

/-- C6 counterexample: in `c6store` the internal row order is `b` before
`a`, yet `load_full` returns the gene vector in ascending lexical order
`[a, b]` — the scan is `ORDER BY geneID`, not internal-index order. -/
theorem load_full_scan_order_cex :
    c6store.rankings.map Row.geneID = [['b'], ['a']] ∧
    load_full c6store junk0 =
      .ok ([['m']], [['a'], ['b']], [[(2 : Int)], [(1 : Int)]]) ∧
    ([['a'], ['b']] : List Str) ≠ [['b'], ['a']] := by
  refine ⟨rfl, ?_, by decide⟩
  rfl

/-- C6 (amended): the gene vector returned by `load_full` is the store's
gene identifiers in ascending lexical identifier order — the full scan is
`ORDER BY geneID`, not internal-index order — and it is a deterministic
function of the database contents (it equals `allGeneIds st`). -/
theorem load_full_genes_sorted (st : Store) (junk : Nat → Nat → Int) (hwf : WFStore st) :
    ∃ fs gv m, load_full st junk = .ok (fs, gv, m) ∧
      gv = allGeneIds st ∧
      List.Sorted strLeP gv ∧
      List.Perm gv (st.rankings.map Row.geneID) := by
  obtain ⟨m, hload, -, -, -⟩ := load_full_ok st junk hwf
  exact ⟨featureIds st, allGeneIds st, m, hload, rfl, allGeneIds_sorted st, allGeneIds_perm st⟩

/-- Witness for the amended C6 on the out-of-lexical-order database. -/
theorem load_full_genes_sorted_witness :
    WFStore c6store ∧
    ∃ fs gv m, load_full c6store junk0 = .ok (fs, gv, m) ∧
      gv = allGeneIds c6store ∧
      List.Sorted strLeP gv ∧
      List.Perm gv (c6store.rankings.map Row.geneID) :=
  ⟨by decide, load_full_genes_sorted c6store junk0 (by decide)⟩

/-- C7: the SQL quoting round-trips — lexing the `IN (…)` text built by
`quoted_csv` (single quotes doubled) recovers exactly the requested
identifier list, quote characters included, and the rows the filtered
query matches are exactly the stored rows whose identifier is in the
requested set: no match is omitted and the query text is never corrupted. -/
theorem quoted_csv_roundtrip (gs : List Str) (hne : gs ≠ []) :
    parseCsv (quoted_csv gs) = some gs ∧
    ∀ st r, r ∈ rankingsWhereIn st gs ↔ (r ∈ st.rankings ∧ r.geneID ∈ gs) :=
  ⟨parseCsv_quoted gs hne, fun _ _ => mem_rankingsWhereIn⟩

/-- Witness for C7 on the identifier `O'Brien1`, which contains an embedded
single quote. -/
theorem quoted_csv_roundtrip_witness :
    parseCsv (quoted_csv [['O', squo, 'B', 'r', 'i', 'e', 'n', '1']]) =
      some [['O', squo, 'B', 'r', 'i', 'e', 'n', '1']] :=
  (quoted_csv_roundtrip [['O', squo, 'B', 'r', 'i', 'e', 'n', '1']] (by decide)).1

/-- C8: a filtered load with an empty gene set fails with
`InvalidArgumentError` immediately: the assertion precedes the matrix
pre-allocation and the query, no result is produced, and the loader —
a pure function of the store — is unchanged. -/
theorem load_empty_invalid_argument (st : Store) (junk : Nat → Nat → Int) :
    load st [] junk = .error .invalidArgument := rfl

/-- C4 counterexample: in `c4store` the single blob decodes to one element
while the feature count is 2, yet the load does not fail — numpy broadcasts
the single value across the whole column and `load_full` succeeds. -/
theorem broadcast_short_blob_cex :
    (decodeChunks (derive_dtype (geneIdCount c4store)) [5, 0]).length = 1 ∧
    (featureIds c4store).length = 2 ∧
    load_full c4store junk0 = .ok ([['f'], ['g']], [['a']], [[(5 : Int), 5]]) := by
  refine ⟨rfl, rfl, ?_⟩
  rfl

/-- C4 (amended): during any load, a returned blob whose byte length is not
an exact multiple of the rank width, or whose decoded element count differs
from both the feature count and 1, causes the operation to fail with a
decode error and no partial matrix; a single-element blob is instead
broadcast across its column and silently accepted. -/
theorem bad_blob_decode_error (st : Store) (gs : List Str) (junk : Nat → Nat → Int) :
    ((∃ r ∈ st.rankings,
        badBlob (derive_dtype (geneIdCount st)) (featureIds st).length r) →
      load_full st junk = .error .decodeError) ∧
    (gs ≠ [] → (st.rankings.map Row.geneID).Nodup →
      (∃ r ∈ st.rankings, r.geneID ∈ gs ∧
        badBlob (derive_dtype (geneIdCount st)) (featureIds st).length r) →
      load st gs junk = .error .decodeError) := by
  constructor
  · intro hbad
    have hG : (allGeneIds st).length = st.rankings.length := by
      simp [allGeneIds]
    have hR : (allRankings st).length = st.rankings.length := (allRankings_perm st).length_eq
    have hbad2 : ∃ r ∈ allRankings st,
        badBlob (derive_dtype (geneIdCount st)) (featureIds st).length r := by
      obtain ⟨r, hr, hb⟩ := hbad
      exact ⟨r, (allRankings_perm st).mem_iff.mpr hr, hb⟩
    have herr := fillColumns_err (derive_dtype (geneIdCount st)) (featureIds st).length
      (allRankings st) 0 (npEmpty (featureIds st).length (allGeneIds st).length junk)
      (by rw [npEmpty_length, hR, hG]; omega) hbad2
    simp only [load_full]
    rw [herr]
  · intro hne hnodup hbad
    have hbad2 : ∃ r ∈ rankingsWhereIn st gs,
        badBlob (derive_dtype (geneIdCount st)) (featureIds st).length r := by
      obtain ⟨r, hr, hmem, hb⟩ := hbad
      exact ⟨r, mem_rankingsWhereIn.mpr ⟨hr, hmem⟩, hb⟩
    have hrows_le := rankingsWhereIn_length_le st gs hnodup
    have herr := fillColumns_err (derive_dtype (geneIdCount st)) (featureIds st).length
      (rankingsWhereIn st gs) 0 (npEmpty (featureIds st).length gs.length junk)
      (by rw [npEmpty_length]; omega) hbad2
    simp only [load, if_neg hne, parseCsv_quoted gs hne]
    rw [herr]

/-- Witness for the amended C4: a three-byte blob at rank width two makes
both the full and the filtered load fail with a decode error. -/
theorem bad_blob_decode_error_witness :
    load_full c4badStore junk0 = .error .decodeError ∧
    load c4badStore [['a']] junk0 = .error .decodeError := by
  obtain ⟨h1, h2⟩ := bad_blob_decode_error c4badStore [['a']] junk0
  exact ⟨h1 (by decide), h2 (by decide) (by decide) (by decide)⟩

/-- C9: construction fails with `NotFoundError` when the file path does not
exist, fails with `InvalidArgumentError` when (the path exists and) the
name or the nomenclature is empty, and succeeds exactly when the path
exists and both strings are non-empty. -/
theorem init_spec (pathExists : Str → Bool) (fname nm nomenclature : Str) (st : Store) :
    (pathExists fname = false →
      RankingDatabase.init pathExists fname nm nomenclature st = .error .notFound) ∧
    (pathExists fname = true → (nm = [] ∨ nomenclature = []) →
      RankingDatabase.init pathExists fname nm nomenclature st = .error .invalidArgument) ∧
    ((∃ db, RankingDatabase.init pathExists fname nm nomenclature st = .ok db) ↔
      (pathExists fname = true ∧ nm ≠ [] ∧ nomenclature ≠ [])) := by
  by_cases h1 : pathExists fname = false <;>
    by_cases h2 : nm = [] <;>
      by_cases h3 : nomenclature = [] <;>
        simp [RankingDatabase.init, h1, h2, h3]

/-- Witness for C9: each error condition and one successful construction. -/
theorem init_spec_witness :
    RankingDatabase.init (fun _ => false) ['p'] ['n'] ['m'] emptyStore = .error .notFound ∧
    RankingDatabase.init (fun _ => true) ['p'] [] ['m'] emptyStore = .error .invalidArgument ∧
    (∃ db, RankingDatabase.init (fun _ => true) ['p'] ['n'] ['m'] emptyStore = .ok db) := by
  obtain ⟨h1, -, -⟩ := init_spec (fun _ => false) ['p'] ['n'] ['m'] emptyStore
  obtain ⟨-, h2, -⟩ := init_spec (fun _ => true) ['p'] [] ['m'] emptyStore
  obtain ⟨-, -, h3⟩ := init_spec (fun _ => true) ['p'] ['n'] ['m'] emptyStore
  exact ⟨h1 rfl, h2 rfl (Or.inl rfl), h3.mpr ⟨rfl, by decide, by decide⟩⟩

/-- C10 counterexample: on the empty database, requesting the (empty)
entire gene list makes `load` fail the non-empty assertion while
`load_full` succeeds, so the two calls do not agree on every database. -/
theorem load_all_genes_empty_store_cex :
    allGeneIds emptyStore = [] ∧
    load emptyStore (allGeneIds emptyStore) junk0 = .error .invalidArgument ∧
    load_full emptyStore junk0 = .ok ([], [], []) :=
  ⟨rfl, rfl, rfl⟩

/-- C10 (amended): on every database with at least one gene row, loading
the database's entire gene list returns exactly the `load_full` result:
same feature vector, same gene vector in the same order, same matrix. -/
theorem load_all_genes_eq_load_full (st : Store) (junk : Nat → Nat → Int)
    (hne : st.rankings ≠ []) :
    load st (allGeneIds st) junk = load_full st junk := by
  have hgs : allGeneIds st ≠ [] := by
    intro h
    apply hne
    have hlen := congrArg List.length h
    simp only [allGeneIds, List.length_insertionSort, List.length_map, List.length_nil] at hlen
    exact List.eq_nil_of_length_eq_zero hlen
  have hfilter : (st.rankings.filter fun r => decide (r.geneID ∈ allGeneIds st)) =
      st.rankings := by
    apply List.filter_eq_self.mpr
    intro r hr
    simp only [decide_eq_true_eq]
    exact (allGeneIds_perm st).mem_iff.mpr (List.mem_map_of_mem Row.geneID hr)
  simp only [load, if_neg hgs, parseCsv_quoted _ hgs, load_full, rankingsWhereIn, hfilter]
  rw [← allRankings, ← allGeneIds_eq_map]

/-- Witness for the amended C10 on the concrete four-gene database. -/
theorem load_all_genes_eq_load_full_witness :
    load exStore (allGeneIds exStore) junk0 = load_full exStore junk0 :=
  load_all_genes_eq_load_full exStore junk0 (by decide)
